import Mathlib

/-
Verification of the airdrop status-normalization and change-detection
pipeline (src/alpha.js).

Modelling conventions:
  * Instants are integer milliseconds since the Unix epoch (`Int`), like
    JavaScript `Date` values.  `now` is an arbitrary instant.
  * The host timezone is an explicit parameter `tz` : offset east of UTC in
    milliseconds (JavaScript `-getTimezoneOffset() * 60000`).  JavaScript
    parses `"YYYY-MM-DD"` as UTC midnight but `"YYYY-MM-DDTHH:MM"` as local
    time; `toISOString` prints UTC while `toTimeString` prints local time.
    All of that is modelled faithfully below.
  * The calendar is the proleptic Gregorian calendar used by ECMAScript
    `Date` (functions `daysFromCivil` / `civilFromDays`, the standard
    era-based algorithm), proved correct in `civilFromDays_spec`.
  * Absent JSON fields are `Option.none`.  JavaScript truthiness of the
    string fields (`""` and `undefined` are falsy) is `truthyS`.
  * A thrown exception is `Option.none` / `Except.error` at the
    corresponding level.
-/

set_option maxHeartbeats 1000000

/-! ## Integer division helper -/

theorem edivSpec (a k : Int) (hk : 0 < k) :
    k * Int.ediv a k + Int.emod a k = a ∧ 0 ≤ Int.emod a k ∧ Int.emod a k < k :=
  ⟨Int.ediv_add_emod a k, Int.emod_nonneg a (by omega), Int.emod_lt_of_pos a hk⟩

/-! ## The proleptic Gregorian calendar of ECMAScript `Date` -/

def cfdEra (z : Int) : Int := Int.ediv (z + 719468) 146097

def cfdDoe (z : Int) : Int := z + 719468 - cfdEra z * 146097

def cfdYoe (z : Int) : Int :=
  Int.ediv (cfdDoe z - Int.ediv (cfdDoe z) 1460 + Int.ediv (cfdDoe z) 36524
    - Int.ediv (cfdDoe z) 146096) 365

def cfdDoy (z : Int) : Int :=
  cfdDoe z - (cfdYoe z * 365 + Int.ediv (cfdYoe z) 4 - Int.ediv (cfdYoe z) 100)

def cfdMp (z : Int) : Int := Int.ediv (5 * cfdDoy z + 2) 153

def cfdD (z : Int) : Int := cfdDoy z - Int.ediv (153 * cfdMp z + 2) 5 + 1

def cfdM (z : Int) : Int := if cfdMp z < 10 then cfdMp z + 3 else cfdMp z - 9

def cfdY (z : Int) : Int :=
  if cfdM z ≤ 2 then cfdYoe z + cfdEra z * 400 + 1 else cfdYoe z + cfdEra z * 400

/-- Day number (days since 1970-01-01) to calendar date (year, month, day). -/
def civilFromDays (z : Int) : Int × Int × Int := (cfdY z, cfdM z, cfdD z)

/-- Calendar date to day number (days since 1970-01-01). -/
def daysFromCivil (y m d : Int) : Int :=
  let y2 := y - (if m ≤ 2 then 1 else 0)
  let era := Int.ediv y2 400
  let yoe := y2 - era * 400
  let mp  := if 2 < m then m - 3 else m + 9
  era * 146097 + (yoe * 365 + Int.ediv yoe 4 - Int.ediv yoe 100
    + Int.ediv (153 * mp + 2) 5 + d - 1) - 719468

def isLeapYear (y : Int) : Prop :=
  Int.emod y 4 = 0 ∧ (Int.emod y 100 ≠ 0 ∨ Int.emod y 400 = 0)

instance (y : Int) : Decidable (isLeapYear y) := by
  unfold isLeapYear
  infer_instance

/-- Number of days of month `m` in year `y` (Gregorian). -/
def daysInMonth (y m : Int) : Int :=
  if m = 2 then (if isLeapYear y then 29 else 28)
  else if m = 4 ∨ m = 6 ∨ m = 9 ∨ m = 11 then 30
  else 31

theorem calKernel (n era r1 doe q1460 r2 q36524 r3 q146096 r4 yoe r5 q4 r6 q100 r7
    doy mp r8 q5 r9 : Int)
    (h1 : 146097 * era + r1 = n) (h1b : 0 ≤ r1) (h1c : r1 < 146097)
    (hdoe : doe = n - era * 146097)
    (h2 : 1460 * q1460 + r2 = doe) (h2b : 0 ≤ r2) (h2c : r2 < 1460)
    (h3 : 36524 * q36524 + r3 = doe) (h3b : 0 ≤ r3) (h3c : r3 < 36524)
    (h4 : 146096 * q146096 + r4 = doe) (h4b : 0 ≤ r4) (h4c : r4 < 146096)
    (h5 : 365 * yoe + r5 = doe - q1460 + q36524 - q146096) (h5b : 0 ≤ r5) (h5c : r5 < 365)
    (h6 : 4 * q4 + r6 = yoe) (h6b : 0 ≤ r6) (h6c : r6 < 4)
    (h7 : 100 * q100 + r7 = yoe) (h7b : 0 ≤ r7) (h7c : r7 < 100)
    (hdoy : doy = doe - (yoe * 365 + q4 - q100))
    (h8 : 153 * mp + r8 = 5 * doy + 2) (h8b : 0 ≤ r8) (h8c : r8 < 153)
    (h9 : 5 * q5 + r9 = 153 * mp + 2) (h9b : 0 ≤ r9) (h9c : r9 < 5) :
    0 ≤ yoe ∧ yoe ≤ 399 ∧ 0 ≤ doy ∧ doy ≤ 365 ∧ 0 ≤ mp ∧ mp ≤ 11 ∧
    1 ≤ doy - q5 + 1 ∧ doy - q5 + 1 ≤ 31 ∧
    ((mp = 1 ∨ mp = 3 ∨ mp = 6 ∨ mp = 8) → doy - q5 + 1 ≤ 30) ∧
    (mp = 11 → doy - q5 + 1 ≤ 29) ∧
    (mp = 11 → doy - q5 + 1 = 29 → (r6 = 3 ∧ (r7 ≠ 99 ∨ yoe = 399))) := by
  have hb1 : 0 ≤ q36524 := by omega
  have hb2 : q36524 ≤ 4 := by omega
  have hb3 : 0 ≤ q146096 := by omega
  have hb4 : q146096 ≤ 1 := by omega
  have hyoe1 : 0 ≤ yoe := by interval_cases q36524 <;> interval_cases q146096 <;> omega
  have hyoe2 : yoe ≤ 399 := by interval_cases q36524 <;> interval_cases q146096 <;> omega
  have hdoy1 : 0 ≤ doy := by interval_cases q36524 <;> interval_cases q146096 <;> omega
  have hdoy2 : doy ≤ 365 := by interval_cases q36524 <;> interval_cases q146096 <;> omega
  refine ⟨hyoe1, hyoe2, hdoy1, hdoy2, by omega, by omega, by omega, by omega, by omega, by omega,
    ?_⟩
  intro hmp hd
  have hdoy365 : doy = 365 := by omega
  have hq100a : 0 ≤ q100 := by omega
  have hq100b : q100 ≤ 3 := by omega
  interval_cases q100 <;> interval_cases q36524 <;> interval_cases q146096 <;> omega

/-- The output of `civilFromDays` is a valid calendar date, and
`daysFromCivil` maps it back to the input day number. -/
theorem civilFromDays_spec (z : Int) :
    1 ≤ cfdM z ∧ cfdM z ≤ 12 ∧ 1 ≤ cfdD z ∧ cfdD z ≤ daysInMonth (cfdY z) (cfdM z) ∧
    daysFromCivil (cfdY z) (cfdM z) (cfdD z) = z := by
  obtain ⟨s1a, s1b, s1c⟩ := edivSpec (z + 719468) 146097 (by norm_num)
  have d1 : cfdEra z = Int.ediv (z + 719468) 146097 := rfl
  have d2 : cfdDoe z = z + 719468 - cfdEra z * 146097 := rfl
  obtain ⟨s2a, s2b, s2c⟩ := edivSpec (cfdDoe z) 1460 (by norm_num)
  obtain ⟨s3a, s3b, s3c⟩ := edivSpec (cfdDoe z) 36524 (by norm_num)
  obtain ⟨s4a, s4b, s4c⟩ := edivSpec (cfdDoe z) 146096 (by norm_num)
  obtain ⟨s5a, s5b, s5c⟩ := edivSpec (cfdDoe z - Int.ediv (cfdDoe z) 1460
    + Int.ediv (cfdDoe z) 36524 - Int.ediv (cfdDoe z) 146096) 365 (by norm_num)
  have d3 : cfdYoe z = Int.ediv (cfdDoe z - Int.ediv (cfdDoe z) 1460
    + Int.ediv (cfdDoe z) 36524 - Int.ediv (cfdDoe z) 146096) 365 := rfl
  obtain ⟨s6a, s6b, s6c⟩ := edivSpec (cfdYoe z) 4 (by norm_num)
  obtain ⟨s7a, s7b, s7c⟩ := edivSpec (cfdYoe z) 100 (by norm_num)
  have d4 : cfdDoy z = cfdDoe z - (cfdYoe z * 365 + Int.ediv (cfdYoe z) 4
    - Int.ediv (cfdYoe z) 100) := rfl
  obtain ⟨s8a, s8b, s8c⟩ := edivSpec (5 * cfdDoy z + 2) 153 (by norm_num)
  have d5 : cfdMp z = Int.ediv (5 * cfdDoy z + 2) 153 := rfl
  obtain ⟨s9a, s9b, s9c⟩ := edivSpec (153 * cfdMp z + 2) 5 (by norm_num)
  have d6 : cfdD z = cfdDoy z - Int.ediv (153 * cfdMp z + 2) 5 + 1 := rfl
  obtain ⟨k1, k2, k3, k4, k5, k6, k7, k8, k9, k10, k11⟩ :=
    calKernel (z + 719468) (cfdEra z) (Int.emod (z + 719468) 146097) (cfdDoe z)
      (Int.ediv (cfdDoe z) 1460) (Int.emod (cfdDoe z) 1460)
      (Int.ediv (cfdDoe z) 36524) (Int.emod (cfdDoe z) 36524)
      (Int.ediv (cfdDoe z) 146096) (Int.emod (cfdDoe z) 146096)
      (cfdYoe z) (Int.emod (cfdDoe z - Int.ediv (cfdDoe z) 1460
        + Int.ediv (cfdDoe z) 36524 - Int.ediv (cfdDoe z) 146096) 365)
      (Int.ediv (cfdYoe z) 4) (Int.emod (cfdYoe z) 4)
      (Int.ediv (cfdYoe z) 100) (Int.emod (cfdYoe z) 100)
      (cfdDoy z) (cfdMp z) (Int.emod (5 * cfdDoy z + 2) 153)
      (Int.ediv (153 * cfdMp z + 2) 5) (Int.emod (153 * cfdMp z + 2) 5)
      s1a s1b s1c d2 s2a s2b s2c s3a s3b s3c s4a s4b s4c s5a s5b s5c s6a s6b s6c
      s7a s7b s7c d4 s8a s8b s8c s9a s9b s9c
  by_cases hmp : cfdMp z < 10
  · have dm : cfdM z = cfdMp z + 3 := by simp only [cfdM, if_pos hmp]
    have hm3 : ¬ cfdM z ≤ 2 := by omega
    have dy : cfdY z = cfdYoe z + cfdEra z * 400 := by simp only [cfdY, if_neg hm3]
    refine ⟨by omega, by omega, by omega, ?_, ?_⟩
    · simp only [daysInMonth]
      have hm2 : cfdM z ≠ 2 := by omega
      rw [if_neg hm2]
      by_cases h30 : cfdM z = 4 ∨ cfdM z = 6 ∨ cfdM z = 9 ∨ cfdM z = 11
      · rw [if_pos h30]; omega
      · rw [if_neg h30]; omega
    · simp only [daysFromCivil, if_neg hm3, if_pos (show 2 < cfdM z by omega)]
      obtain ⟨t1a, t1b, t1c⟩ := edivSpec (cfdY z - 0) 400 (by norm_num)
      have hEra2 : Int.ediv (cfdY z - 0) 400 = cfdEra z := by omega
      rw [hEra2]
      have hyoe2 : cfdY z - 0 - cfdEra z * 400 = cfdYoe z := by omega
      rw [hyoe2]
      have hmon : (153 * (cfdM z - 3) + 2 : Int) = 153 * cfdMp z + 2 := by omega
      rw [hmon]
      omega
  · have dm : cfdM z = cfdMp z - 9 := by simp only [cfdM, if_neg hmp]
    have hm3 : cfdM z ≤ 2 := by omega
    have dy : cfdY z = cfdYoe z + cfdEra z * 400 + 1 := by simp only [cfdY, if_pos hm3]
    refine ⟨by omega, by omega, by omega, ?_, ?_⟩
    · simp only [daysInMonth]
      by_cases hm2 : cfdM z = 2
      · rw [if_pos hm2]
        by_cases hleap : isLeapYear (cfdY z)
        · rw [if_pos hleap]; omega
        · rw [if_neg hleap]
          have hnl : ¬ (Int.emod (cfdY z) 4 = 0 ∧
              (Int.emod (cfdY z) 100 ≠ 0 ∨ Int.emod (cfdY z) 400 = 0)) := by
            simpa only [isLeapYear] using hleap
          have hk11 := k11 (by omega)
          by_cases hd29 : cfdD z = 29
          · exfalso
            obtain ⟨hr6, hr7⟩ := hk11 (by omega)
            obtain ⟨u1a, u1b, u1c⟩ := edivSpec (cfdY z) 4 (by norm_num)
            obtain ⟨u2a, u2b, u2c⟩ := edivSpec (cfdY z) 100 (by norm_num)
            obtain ⟨u3a, u3b, u3c⟩ := edivSpec (cfdY z) 400 (by norm_num)
            apply hnl
            constructor
            · omega
            · rcases hr7 with h | h
              · left; omega
              · right; omega
          · omega
      · rw [if_neg hm2]
        by_cases h30 : cfdM z = 4 ∨ cfdM z = 6 ∨ cfdM z = 9 ∨ cfdM z = 11
        · rw [if_pos h30]; omega
        · rw [if_neg h30]; omega
    · simp only [daysFromCivil, if_pos hm3, if_neg (show ¬ 2 < cfdM z by omega)]
      obtain ⟨t1a, t1b, t1c⟩ := edivSpec (cfdY z - 1) 400 (by norm_num)
      have hEra2 : Int.ediv (cfdY z - 1) 400 = cfdEra z := by omega
      rw [hEra2]
      have hyoe2 : cfdY z - 1 - cfdEra z * 400 = cfdYoe z := by omega
      rw [hyoe2]
      have hmon : (153 * (cfdM z + 9) + 2 : Int) = 153 * cfdMp z + 2 := by omega
      rw [hmon]
      omega

/-! ## Decimal digits, zero-padded printing, strict parsing -/

def digitChar (n : Nat) : Char := Char.ofNat (48 + n)

def digitVal (c : Char) : Option Nat :=
  if 48 ≤ c.toNat ∧ c.toNat ≤ 57 then some (c.toNat - 48) else none

theorem digitVal_digitChar (n : Nat) (h : n < 10) :
    digitVal (digitChar n) = some n := by
  interval_cases n <;> decide

/-- Two-digit zero-padded decimal rendering (as characters). -/
def pad2L (n : Nat) : List Char := [digitChar (n / 10 % 10), digitChar (n % 10)]

/-- Four-digit zero-padded decimal rendering (as characters). -/
def pad4L (n : Nat) : List Char :=
  [digitChar (n / 1000 % 10), digitChar (n / 100 % 10), digitChar (n / 10 % 10),
    digitChar (n % 10)]

/-- Strict parser for `YYYY-MM-DD` with ECMAScript-style validity checking
(month 1..12, day 1..days-in-month).  Models the ISO date recognition of
`new Date("YYYY-MM-DD")`; any other shape is an invalid date. -/
def parseYMD (s : String) : Option (Int × Int × Int) :=
  match s.data with
  | [a1, a2, a3, a4, h1, b1, b2, h2, c1, c2] =>
    if h1 = '-' ∧ h2 = '-' then
      match digitVal a1, digitVal a2, digitVal a3, digitVal a4,
            digitVal b1, digitVal b2, digitVal c1, digitVal c2 with
      | some x1, some x2, some x3, some x4, some y1, some y2, some z1, some z2 =>
        let y : Int := (↑(x1 * 1000 + x2 * 100 + x3 * 10 + x4) : Int)
        let m : Int := (↑(y1 * 10 + y2) : Int)
        let d : Int := (↑(z1 * 10 + z2) : Int)
        if 1 ≤ m ∧ m ≤ 12 ∧ 1 ≤ d ∧ d ≤ daysInMonth y m then some (y, m, d) else none
      | _, _, _, _, _, _, _, _ => none
    else none
  | _ => none

/-- Strict parser for `HH:MM` (hours 0..23, minutes 0..59); result is the
millisecond offset into the day.  Models the ISO time recognition of
`new Date("...THH:MM")`. -/
def parseHM (s : String) : Option Int :=
  match s.data with
  | [a1, a2, c, b1, b2] =>
    if c = ':' then
      match digitVal a1, digitVal a2, digitVal b1, digitVal b2 with
      | some x1, some x2, some y1, some y2 =>
        let hh := x1 * 10 + x2
        let mm := y1 * 10 + y2
        if hh ≤ 23 ∧ mm ≤ 59 then some ((↑(hh * 3600000 + mm * 60000) : Int)) else none
      | _, _, _, _ => none
    else none
  | _ => none

/-- Rendering of a calendar date as `YYYY-MM-DD` characters. -/
def ymdChars (y m d : Int) : List Char :=
  pad4L y.toNat ++ '-' :: pad2L m.toNat ++ '-' :: pad2L d.toNat

theorem parseYMD_ymdChars (y m d : Int) (hy0 : 0 ≤ y) (hy : y ≤ 9999)
    (hm1 : 1 ≤ m) (hm2 : m ≤ 12) (hd1 : 1 ≤ d) (hd2 : d ≤ daysInMonth y m) :
    parseYMD (String.mk (ymdChars y m d)) = some (y, m, d) := by
  obtain ⟨yn, rfl⟩ : ∃ n : Nat, y = (↑n : Int) := ⟨y.toNat, (Int.toNat_of_nonneg hy0).symm⟩
  obtain ⟨mn, rfl⟩ : ∃ n : Nat, m = (↑n : Int) :=
    ⟨m.toNat, (Int.toNat_of_nonneg (by omega)).symm⟩
  obtain ⟨dn, rfl⟩ : ∃ n : Nat, d = (↑n : Int) :=
    ⟨d.toNat, (Int.toNat_of_nonneg (by omega)).symm⟩
  have hyn : yn ≤ 9999 := by omega
  have hmn : 1 ≤ mn ∧ mn ≤ 12 := by omega
  have hdn : 1 ≤ dn ∧ dn ≤ 31 := by
    constructor
    · omega
    · have : daysInMonth (↑yn) (↑mn) ≤ 31 := by
        simp only [daysInMonth]
        split
        · split <;> omega
        · split <;> omega
      omega
  have ty : ((↑yn : Int)).toNat = yn := by omega
  have tm : ((↑mn : Int)).toNat = mn := by omega
  have td : ((↑dn : Int)).toNat = dn := by omega
  simp only [ymdChars, pad4L, pad2L, ty, tm, td, List.cons_append, List.nil_append, parseYMD]
  rw [digitVal_digitChar _ (by omega), digitVal_digitChar _ (by omega),
    digitVal_digitChar _ (by omega), digitVal_digitChar _ (by omega),
    digitVal_digitChar _ (by omega), digitVal_digitChar _ (by omega),
    digitVal_digitChar _ (by omega), digitVal_digitChar _ (by omega)]
  have ey : ((↑(yn / 1000 % 10 * 1000 + yn / 100 % 10 * 100 + yn / 10 % 10 * 10
      + yn % 10) : Int)) = (↑yn : Int) := by omega
  have em : ((↑(mn / 10 % 10 * 10 + mn % 10) : Int)) = (↑mn : Int) := by omega
  have ed : ((↑(dn / 10 % 10 * 10 + dn % 10) : Int)) = (↑dn : Int) := by omega
  simp only [ey, em, ed, and_self, if_true]
  rw [if_pos]
  exact ⟨hm1, hm2, hd1, hd2⟩

/-- Rendering of a clock time as `HH:MM` characters. -/
def hmChars (h m : Nat) : List Char := pad2L h ++ ':' :: pad2L m

theorem parseHM_hmChars (h m : Nat) (hh : h ≤ 23) (hm : m ≤ 59) :
    parseHM (String.mk (hmChars h m)) = some ((↑(h * 3600000 + m * 60000) : Int)) := by
  simp only [hmChars, pad2L, List.cons_append, List.nil_append, parseHM]
  rw [digitVal_digitChar _ (by omega), digitVal_digitChar _ (by omega),
    digitVal_digitChar _ (by omega), digitVal_digitChar _ (by omega)]
  have e1 : h / 10 % 10 * 10 + h % 10 = h := by omega
  have e2 : m / 10 % 10 * 10 + m % 10 = m := by omega
  simp only [e1, e2, and_self, if_true]
  rw [if_pos ⟨hh, hm⟩]

/-! ## JavaScript `Date` primitives (explicit timezone offset `tz`, in ms) -/

/-- Instant of the local midnight of the local day containing `t`
(`d.setHours(0, 0, 0, 0)` and the `today` computation). -/
def localDayStart (t tz : Int) : Int := Int.ediv (t + tz) 86400000 * 86400000 - tz

/-- Local hour field of instant `t` (`d.getHours()`). -/
def jsGetHours (t tz : Int) : Int := Int.ediv (Int.emod (t + tz) 86400000) 3600000

/-- The instant after `d.setHours(h)` (single argument: minutes, seconds and
milliseconds within the hour are kept; out-of-range hours roll the date). -/
def jsSetHoursSingle (t tz h : Int) : Int :=
  localDayStart t tz + h * 3600000 + Int.emod (t + tz) 3600000

/-- The instant after `d.setHours(h, m, 0, 0)`. -/
def jsSetHM (t tz h m : Int) : Int := localDayStart t tz + h * 3600000 + m * 60000

/-- The `setHours(getHours() + 18)` pattern of the source adds exactly 18
hours to the instant (under a fixed UTC offset). -/
theorem jsSetHoursSingle_add18 (t tz : Int) :
    jsSetHoursSingle t tz (jsGetHours t tz + 18) = t + 64800000 := by
  unfold jsSetHoursSingle jsGetHours localDayStart
  obtain ⟨a1, a2, a3⟩ := edivSpec (t + tz) 86400000 (by norm_num)
  obtain ⟨b1, b2, b3⟩ := edivSpec (t + tz) 3600000 (by norm_num)
  obtain ⟨c1, c2, c3⟩ := edivSpec (Int.emod (t + tz) 86400000) 3600000 (by norm_num)
  omega

/-- `new Date("YYYY-MM-DD")`: a valid ISO date-only string is UTC midnight;
anything else is an invalid date (`none`). -/
def jsParseDate (s : String) : Option Int :=
  (parseYMD s).map (fun p => daysFromCivil p.1 p.2.1 p.2.2 * 86400000)

/-- `new Date(ds ++ "T" ++ ts)`: a valid ISO date-time string without a zone
suffix is local time; anything else is an invalid date (`none`). -/
def jsParseDateTime (ds ts : String) (tz : Int) : Option Int :=
  match parseYMD ds, parseHM ts with
  | some p, some ms => some (daysFromCivil p.1 p.2.1 p.2.2 * 86400000 + ms - tz)
  | _, _ => none

/-- Characters of `d.toISOString().slice(0, 10)`: the UTC calendar date. -/
def isoDateChars (t : Int) : List Char :=
  ymdChars (cfdY (Int.ediv t 86400000)) (cfdM (Int.ediv t 86400000))
    (cfdD (Int.ediv t 86400000))

/-- `d.toISOString().slice(0, 10)` (years 0..9999). -/
def isoDateOf (t : Int) : String := String.mk (isoDateChars t)

/-- `d.toTimeString().slice(0, 5)`: the local clock time `HH:MM`. -/
def localHMOf (t tz : Int) : String :=
  let w := Int.emod (t + tz) 86400000
  String.mk (hmChars (Int.ediv w 3600000).toNat (Int.ediv (Int.emod w 3600000) 60000).toNat)

theorem jsParseDate_isoDateOf (t : Int) (h0 : 0 ≤ cfdY (Int.ediv t 86400000))
    (h1 : cfdY (Int.ediv t 86400000) ≤ 9999) :
    jsParseDate (isoDateOf t) = some (Int.ediv t 86400000 * 86400000) := by
  obtain ⟨v1, v2, v3, v4, v5⟩ := civilFromDays_spec (Int.ediv t 86400000)
  unfold jsParseDate isoDateOf isoDateChars
  rw [parseYMD_ymdChars _ _ _ h0 h1 v1 v2 v3 v4]
  simp only [Option.map_some']
  rw [v5]

theorem parseHM_localHMOf (t tz : Int) :
    parseHM (localHMOf t tz) =
      some (Int.ediv (Int.emod (t + tz) 86400000) 60000 * 60000) := by
  unfold localHMOf
  obtain ⟨a1, a2, a3⟩ := edivSpec (t + tz) 86400000 (by norm_num)
  obtain ⟨b1, b2, b3⟩ := edivSpec (Int.emod (t + tz) 86400000) 3600000 (by norm_num)
  obtain ⟨c1, c2, c3⟩ :=
    edivSpec (Int.emod (Int.emod (t + tz) 86400000) 3600000) 60000 (by norm_num)
  obtain ⟨d1, d2, d3⟩ := edivSpec (Int.emod (t + tz) 86400000) 60000 (by norm_num)
  rw [parseHM_hmChars _ _ (by omega) (by omega)]
  congr 1
  omega

/-! ## Data model -/

/-- JavaScript truthiness of an optional string field (`undefined` and `""`
are falsy). -/
def truthyS : Option String → Bool
  | none => false
  | some s => !s.isEmpty

/-- The empty string for an absent field (`x || ''` and friends). -/
def orEmpty : Option String → String
  | none => ""
  | some s => s

/-- One upstream airdrop record (untrusted). -/
structure RawEvent where
  token : String
  phase : Option Int
  date : Option String
  time : Option String
  status : String
deriving DecidableEq, Repr

/-- One processed record as produced by `processAirdropStatus`.
`original_status` is `none` when the source never assigned the field. -/
structure NormEvent where
  token : String
  phase : Option Int
  date : Option String
  time : Option String
  status : String
  original_status : Option String
deriving DecidableEq, Repr

/-! ## The resolver (`processAirdropStatus`) -/

def decDigitsAux : List Char → Nat → Option Nat
  | [], acc => some acc
  | c :: cs, acc =>
    match digitVal c with
    | some d => decDigitsAux cs (acc * 10 + d)
    | none => none

/-- JavaScript `Number(s)` restricted to the shapes that occur in `HH:MM`
components: `Number("") = 0`, a digit string is its value, anything else is
`NaN` (`none`). -/
def jsNumber (s : String) : Option Int :=
  match s.data with
  | [] => some 0
  | l => (decDigitsAux l 0).map (fun n => (↑n : Int))

def splitColonAux : List Char → List Char → List (List Char)
  | [], acc => [acc.reverse]
  | c :: cs, acc =>
    if c = ':' then acc.reverse :: splitColonAux cs []
    else splitColonAux cs (c :: acc)

/-- JavaScript `s.split(':')`. -/
def splitColon (s : String) : List String :=
  (splitColonAux s.data []).map (fun l => String.mk l)

/-- Component `i` of `time.split(':').map(Number)`, with `x || 0` applied:
a missing or `NaN` component becomes 0. -/
def timeComp (s : String) (i : Nat) : Int :=
  (((splitColon s).get? i).bind jsNumber).getD 0

/-- The status computed by the `if (processedAirdrop.date)` block of the
source, as a function of the effective date/time fields and `now`; `none`
when the block is skipped (falsy date) and no status is assigned. -/
def jsStatus (now tz : Int) (dOpt tOpt : Option String) : Option String :=
  if truthyS dOpt then
    some (match jsParseDate (orEmpty dOpt) with
      | none => ("announced")
      | some p =>
        let ad := localDayStart p tz
        let today := localDayStart now tz
        if ad < today then ("completed")
        else if ad = today then
          (if truthyS tOpt then
            (if jsSetHM p tz (timeComp (orEmpty tOpt) 0) (timeComp (orEmpty tOpt) 1) ≤ now
             then ("completed") else ("announced"))
          else ("announced"))
        else ("announced"))
  else none

/-- The phase-2 time shift (lines 52-60 of the source): for `phase === 2`
with a truthy date, reparse `date + 'T' + (time || '00:00')` (local time),
add 18 hours via `setHours(getHours() + 18)`, and rewrite `date` from
`toISOString()` (UTC) and `time` from `toTimeString()` (local).  `none`
models the `RangeError` thrown by `toISOString()` on an invalid date. -/
def effFields (tz : Int) (a : RawEvent) : Option (Option String × Option String) :=
  if a.phase = some 2 ∧ truthyS a.date then
    match jsParseDateTime (orEmpty a.date)
        (if truthyS a.time then orEmpty a.time else ("00:00")) tz with
    | none => none
    | some t =>
      let t2 := jsSetHoursSingle t tz (jsGetHours t tz + 18)
      some (some (isoDateOf t2), some (localHMOf t2 tz))
  else some (a.date, a.time)

/-- Processing of a single airdrop record (the body of the `map` in
`processAirdropStatus`); `none` models a thrown exception. -/
def processOne (now tz : Int) (a : RawEvent) : Option NormEvent :=
  match effFields tz a with
  | none => none
  | some (d2, t2) =>
    some { token := a.token, phase := a.phase, date := d2, time := t2,
           status := (jsStatus now tz d2 t2).getD a.status,
           original_status := if truthyS d2 then some a.status else none }

/-- `processAirdropStatus` of the source: process every record. -/
def processAirdropStatus (now tz : Int) (l : List RawEvent) : Option (List NormEvent) :=
  l.mapM (processOne now tz)

/-! ## The ordering policy (the sort comparator in `fetchDataFromAPI`) -/

/-- Sign of `x.localeCompare(y)` for code-point ordering (the comparator is
only applied to ASCII `YYYY-MM-DD` / `HH:MM` strings). -/
def cmpStr (x y : String) : Int := if x < y then -1 else if x = y then 0 else 1

/-- The `a.date || ''` key used by the comparator. -/
def dateKey (e : NormEvent) : String := orEmpty e.date

/-- The comparator passed to `.sort` (lines 120-132 of the source). -/
def sortCmp (a b : NormEvent) : Int :=
  if dateKey a ≠ dateKey b then cmpStr (dateKey b) (dateKey a)
  else if !truthyS a.time && truthyS b.time then -1
  else if truthyS a.time && !truthyS b.time then 1
  else if truthyS a.time && truthyS b.time then cmpStr (orEmpty b.time) (orEmpty a.time)
  else 0

/-- Non-strict "sorts no later than" order induced by the comparator. -/
def sortLE (a b : NormEvent) : Prop := sortCmp a b ≤ 0

instance sortLE.instDecidable : DecidableRel sortLE := fun a b =>
  inferInstanceAs (Decidable (sortCmp a b ≤ 0))

/-- `Array.prototype.sort` is a stable sort; with a consistent comparator it
is extensionally the stable insertion sort by the induced order. -/
def jsSortEvents (l : List NormEvent) : List NormEvent := List.insertionSort sortLE l

theorem cmpStr_le_iff (x y : String) : cmpStr x y ≤ 0 ↔ x ≤ y := by
  unfold cmpStr
  rcases lt_trichotomy x y with h | h | h
  · rw [if_pos h]
    exact iff_of_true (by norm_num) h.le
  · subst h
    rw [if_neg (lt_irrefl x), if_pos rfl]
    exact iff_of_true (by norm_num) le_rfl
  · rw [if_neg (asymm h), if_neg (ne_of_gt h)]
    exact iff_of_false (by norm_num) (not_le.mpr h)

theorem cmpStr_lt_iff (x y : String) : cmpStr x y < 0 ↔ x < y := by
  unfold cmpStr
  rcases lt_trichotomy x y with h | h | h
  · rw [if_pos h]
    exact iff_of_true (by norm_num) h
  · subst h
    rw [if_neg (lt_irrefl x), if_pos rfl]
    exact iff_of_false (by norm_num) (lt_irrefl x)
  · rw [if_neg (asymm h), if_neg (ne_of_gt h)]
    exact iff_of_false (by norm_num) (asymm h)

/-- Characterization of the induced order: strictly greater date first;
for equal dates a time-less event sorts no later than anything, an event
with a time sorts no later only than events with a smaller-or-equal time. -/
theorem sortLE_iff (a b : NormEvent) :
    sortLE a b ↔ (dateKey b < dateKey a ∨ (dateKey a = dateKey b ∧
      (truthyS a.time = false ∨ (truthyS a.time = true ∧ truthyS b.time = true ∧
        orEmpty b.time ≤ orEmpty a.time)))) := by
  unfold sortLE sortCmp
  by_cases hd : dateKey a ≠ dateKey b
  · rw [if_pos hd, cmpStr_le_iff]
    constructor
    · intro h
      exact Or.inl (lt_of_le_of_ne h (fun e => hd e.symm))
    · intro h
      rcases h with h | ⟨h, _⟩
      · exact h.le
      · exact absurd h hd
  · push_neg at hd
    rw [if_neg (fun h => h hd)]
    cases hta : truthyS a.time <;> cases htb : truthyS b.time <;>
      simp [hta, htb, hd, cmpStr_le_iff, lt_irrefl]

theorem sortLE_total (a b : NormEvent) : sortLE a b ∨ sortLE b a := by
  rw [sortLE_iff, sortLE_iff]
  rcases lt_trichotomy (dateKey a) (dateKey b) with h | h | h
  · exact Or.inr (Or.inl h)
  · cases hta : truthyS a.time <;> cases htb : truthyS b.time
    · exact Or.inl (Or.inr ⟨h, Or.inl rfl⟩)
    · exact Or.inl (Or.inr ⟨h, Or.inl rfl⟩)
    · exact Or.inr (Or.inr ⟨h.symm, Or.inl rfl⟩)
    · rcases le_total (orEmpty b.time) (orEmpty a.time) with ht | ht
      · exact Or.inl (Or.inr ⟨h, Or.inr ⟨rfl, rfl, ht⟩⟩)
      · exact Or.inr (Or.inr ⟨h.symm, Or.inr ⟨rfl, rfl, ht⟩⟩)
  · exact Or.inl (Or.inl h)

theorem sortLE_trans (a b c : NormEvent) (h1 : sortLE a b) (h2 : sortLE b c) : sortLE a c := by
  rw [sortLE_iff] at h1 h2 ⊢
  rcases h1 with h1 | ⟨e1, i1⟩
  · rcases h2 with h2 | ⟨e2, i2⟩
    · exact Or.inl (lt_trans h2 h1)
    · exact Or.inl (e2 ▸ h1)
  · rcases h2 with h2 | ⟨e2, i2⟩
    · exact Or.inl (e1 ▸ h2)
    · refine Or.inr ⟨e1.trans e2, ?_⟩
      rcases i1 with i1 | ⟨ta, tb, tle1⟩
      · exact Or.inl i1
      · rcases i2 with i2 | ⟨tb2, tc, tle2⟩
        · rw [i2] at tb
          exact absurd tb (by simp)
        · exact Or.inr ⟨ta, tc, le_trans tle2 tle1⟩

instance sortLE.instIsTotal : IsTotal NormEvent sortLE := ⟨sortLE_total⟩

instance sortLE.instIsTrans : IsTrans NormEvent sortLE := ⟨sortLE_trans⟩

theorem jsSortEvents_sorted (l : List NormEvent) : (jsSortEvents l).Pairwise sortLE :=
  List.sorted_insertionSort sortLE l

theorem jsSortEvents_perm (l : List NormEvent) : (jsSortEvents l).Perm l :=
  List.perm_insertionSort sortLE l

theorem filter_orderedInsert_pos (P : NormEvent → Bool) (a : NormEvent)
    (l : List NormEvent) (hPa : P a = true)
    (h : ∀ b ∈ l, P b = true → sortLE a b) :
    (List.orderedInsert sortLE a l).filter P = a :: l.filter P := by
  induction l with
  | nil => simp [List.orderedInsert, hPa]
  | cons b t ih =>
    rw [List.orderedInsert]
    by_cases hab : sortLE a b
    · rw [if_pos hab]
      simp [List.filter_cons, hPa]
    · rw [if_neg hab]
      have hPb : P b = false := by
        cases hpb : P b
        · rfl
        · exact absurd (h b (List.mem_cons_self b t) hpb) hab
      rw [List.filter_cons, if_neg (by simp [hPb]), List.filter_cons, if_neg (by simp [hPb])]
      exact ih (fun x hx hPx => h x (List.mem_cons_of_mem b hx) hPx)

theorem filter_orderedInsert_neg (P : NormEvent → Bool) (a : NormEvent)
    (l : List NormEvent) (hPa : P a = false) :
    (List.orderedInsert sortLE a l).filter P = l.filter P := by
  induction l with
  | nil => simp [List.orderedInsert, hPa]
  | cons b t ih =>
    rw [List.orderedInsert]
    by_cases hab : sortLE a b
    · rw [if_pos hab]
      rw [List.filter_cons, if_neg (by simp [hPa])]
    · rw [if_neg hab]
      rw [List.filter_cons, List.filter_cons]
      cases hPb : P b <;> simp [hPb, ih]

/-- Stability of the sort: the elements of any class of pairwise
order-equivalent events keep their relative input order. -/
theorem jsSortEvents_stable (P : NormEvent → Bool)
    (hcl : ∀ a b, P a = true → P b = true → sortLE a b) (l : List NormEvent) :
    (jsSortEvents l).filter P = l.filter P := by
  unfold jsSortEvents
  induction l with
  | nil => rfl
  | cons a t ih =>
    rw [List.insertionSort]
    by_cases hPa : P a = true
    · rw [filter_orderedInsert_pos P a _ hPa
        (fun b hb hPb => hcl a b hPa hPb), ih, List.filter_cons, if_pos (by simp [hPa])]
    · have hPa2 : P a = false := by
        cases h : P a
        · rfl
        · exact absurd h hPa
      rw [filter_orderedInsert_neg P a _ hPa2, ih, List.filter_cons,
        if_neg (by simp [hPa2])]

/-! ## Change fingerprint (`generateDataHash` / `detectDataChanges`) -/

/-- Lowercase hexadecimal digit. -/
def hexDigit (n : Nat) : Char := if n < 10 then Char.ofNat (48 + n) else Char.ofNat (87 + n)

/-- JSON string escaping of one character, as `JSON.stringify` performs it:
quote and backslash get a backslash, the named control characters get their
short forms, other control characters get `\u00XX`, everything else is
itself. -/
def escChar (c : Char) : List Char :=
  if c = '"' ∨ c = '\\' then ['\\', c]
  else if c.toNat = 8 then ['\\', 'b']
  else if c.toNat = 9 then ['\\', 't']
  else if c.toNat = 10 then ['\\', 'n']
  else if c.toNat = 12 then ['\\', 'f']
  else if c.toNat = 13 then ['\\', 'r']
  else if c.toNat < 32 then
    ['\\', 'u', '0', '0', hexDigit (c.toNat / 16), hexDigit (c.toNat % 16)]
  else [c]

def escList : List Char → List Char
  | [] => []
  | c :: cs => escChar c ++ escList cs

/-- JSON rendering of a string: quote, escaped body, quote. -/
def quotedChars (s : String) : List Char := '"' :: (escList s.data ++ ['"'])

/-- JSON rendering of an optional field (an `undefined` value is omitted by
`JSON.stringify`, with its leading comma). -/
def encOptField (name : String) (v : Option String) : List Char :=
  match v with
  | none => []
  | some s => ',' :: (quotedChars name ++ ':' :: quotedChars s)

/-- JSON rendering of the projected tuple
`\x7btoken, status, date, time\x7d` of one event. -/
def encTuple (e : NormEvent) : List Char :=
  '\x7b' :: (quotedChars ("token") ++ ':' :: quotedChars e.token
    ++ ',' :: (quotedChars ("status") ++ ':' :: quotedChars e.status)
    ++ encOptField ("date") e.date ++ encOptField ("time") e.time ++ ['\x7d'])

def encItems : List NormEvent → List Char
  | [] => []
  | [e] => encTuple e
  | e :: rest => encTuple e ++ ',' :: encItems rest

/-- `JSON.stringify` of the projected tuple array. -/
def jsonTuples (l : List NormEvent) : String := String.mk ('[' :: (encItems l ++ [']']))

/-- The processed upstream payload: the airdrop list plus all other
passthrough top-level fields (opaque here). -/
structure FetchedData where
  airdrops : Option (List NormEvent)
  extra : String
deriving DecidableEq, Repr

/-- `generateDataHash` of the source: `null` without an `airdrops` field,
otherwise the serialization of the (token, status, date, time) tuples. -/
def generateDataHash (d : FetchedData) : Option String :=
  match d.airdrops with
  | none => none
  | some l => some (jsonTuples l)

/-- `detectDataChanges` of the source as a state transition on the stored
`previousDataHash`: returns (changed, new stored hash). -/
def detectDataChanges (prev : Option String) (d : FetchedData) : Bool × Option String :=
  let newHash := generateDataHash d
  if truthyS prev ∧ newHash ≠ prev then (true, prev)
  else (false, newHash)

theorem charToNat_inj {c d : Char} (h : c.toNat = d.toNat) : c = d :=
  Char.ext (UInt32.ext h)

theorem hexDigit_inj (m n : Nat) (hm : m < 16) (hn : n < 16)
    (h : hexDigit m = hexDigit n) : m = n := by
  interval_cases m <;> interval_cases n <;> revert h <;> decide

theorem escChar_desc (c : Char) :
    (¬(c = '"' ∨ c = '\\') ∧ ¬ c.toNat < 32 ∧ escChar c = [c])
  ∨ ((c = '"' ∨ c = '\\') ∧ escChar c = ['\\', c])
  ∨ (c.toNat = 8 ∧ escChar c = ['\\', 'b'])
  ∨ (c.toNat = 9 ∧ escChar c = ['\\', 't'])
  ∨ (c.toNat = 10 ∧ escChar c = ['\\', 'n'])
  ∨ (c.toNat = 12 ∧ escChar c = ['\\', 'f'])
  ∨ (c.toNat = 13 ∧ escChar c = ['\\', 'r'])
  ∨ (¬(c = '"' ∨ c = '\\') ∧ c.toNat < 32 ∧
      escChar c = ['\\', 'u', '0', '0', hexDigit (c.toNat / 16), hexDigit (c.toNat % 16)]) := by
  unfold escChar
  split_ifs with h1 h2 h3 h4 h5 h6 h7
  · exact Or.inr (Or.inl ⟨h1, rfl⟩)
  · exact Or.inr (Or.inr (Or.inl ⟨h2, rfl⟩))
  · exact Or.inr (Or.inr (Or.inr (Or.inl ⟨h3, rfl⟩)))
  · exact Or.inr (Or.inr (Or.inr (Or.inr (Or.inl ⟨h4, rfl⟩))))
  · exact Or.inr (Or.inr (Or.inr (Or.inr (Or.inr (Or.inl ⟨h5, rfl⟩)))))
  · exact Or.inr (Or.inr (Or.inr (Or.inr (Or.inr (Or.inr (Or.inl ⟨h6, rfl⟩))))))
  · exact Or.inr (Or.inr (Or.inr (Or.inr (Or.inr (Or.inr (Or.inr ⟨h1, h7, rfl⟩))))))
  · exact Or.inl ⟨h1, h7, rfl⟩

theorem escChar_append_inj (c1 c2 : Char) (r1 r2 : List Char)
    (h : escChar c1 ++ r1 = escChar c2 ++ r2) : c1 = c2 ∧ r1 = r2 := by
  rcases escChar_desc c1 with ⟨n1, n2, e1⟩ | ⟨q1, e1⟩ | ⟨t1, e1⟩ | ⟨t1, e1⟩ | ⟨t1, e1⟩
      | ⟨t1, e1⟩ | ⟨t1, e1⟩ | ⟨n1, lt1, e1⟩ <;>
    rcases escChar_desc c2 with ⟨m1, m2, e2⟩ | ⟨q2, e2⟩ | ⟨s1, e2⟩ | ⟨s1, e2⟩ | ⟨s1, e2⟩
      | ⟨s1, e2⟩ | ⟨s1, e2⟩ | ⟨m1, lt2, e2⟩ <;>
    rw [e1, e2] at h <;>
    simp only [List.cons_append, List.nil_append, List.cons.injEq] at h <;>
    first
      | exact ⟨h.1, h.2⟩
      | exact ⟨h.2.1, h.2.2⟩
      | exact ⟨charToNat_inj (by omega), h.2.2⟩
      | (exfalso; exact n1 (Or.inr h.1))
      | (exfalso; exact m1 (Or.inr h.1.symm))
      | (exfalso; rcases q1 with rfl | rfl <;> exact absurd h.2.1 (by decide))
      | (exfalso; rcases q2 with rfl | rfl <;> exact absurd h.2.1.symm (by decide))
      | (exfalso; exact absurd h.2.1 (by decide))
      | (refine ⟨charToNat_inj ?_, h.2.2.2.2.2.2⟩
         have u1 := hexDigit_inj _ _ (by omega) (by omega) h.2.2.2.2.1
         have u2 := hexDigit_inj _ _ (by omega) (by omega) h.2.2.2.2.2.1
         omega)

theorem escChar_head (c : Char) : ∃ x xs, escChar c = x :: xs ∧ x ≠ '"' := by
  rcases escChar_desc c with ⟨n1, n2, e⟩ | ⟨q, e⟩ | ⟨t1, e⟩ | ⟨t1, e⟩ | ⟨t1, e⟩
      | ⟨t1, e⟩ | ⟨t1, e⟩ | ⟨n1, lt1, e⟩ <;> rw [e]
  · exact ⟨c, [], rfl, fun hc => n1 (Or.inl hc)⟩
  · exact ⟨'\\', [c], rfl, by decide⟩
  · exact ⟨'\\', ['b'], rfl, by decide⟩
  · exact ⟨'\\', ['t'], rfl, by decide⟩
  · exact ⟨'\\', ['n'], rfl, by decide⟩
  · exact ⟨'\\', ['f'], rfl, by decide⟩
  · exact ⟨'\\', ['r'], rfl, by decide⟩
  · exact ⟨'\\', ['u', '0', '0', hexDigit (c.toNat / 16), hexDigit (c.toNat % 16)], rfl,
      by decide⟩

/-- A JSON-escaped body followed by its closing quote can be cancelled: the
first unescaped quote unambiguously terminates the string. -/
theorem escList_cancel : ∀ (s1 s2 r1 r2 : List Char),
    escList s1 ++ '"' :: r1 = escList s2 ++ '"' :: r2 → s1 = s2 ∧ r1 = r2 := by
  intro s1
  induction s1 with
  | nil =>
    intro s2 r1 r2 h
    cases s2 with
    | nil =>
      simp only [escList, List.nil_append] at h
      injection h with h1 h2
      exact ⟨rfl, h2⟩
    | cons c cs =>
      exfalso
      obtain ⟨x, xs, he, hx⟩ := escChar_head c
      simp only [escList, List.nil_append, he, List.cons_append, List.append_assoc] at h
      injection h with h1 h2
      exact hx h1.symm
  | cons c cs ih =>
    intro s2 r1 r2 h
    cases s2 with
    | nil =>
      exfalso
      obtain ⟨x, xs, he, hx⟩ := escChar_head c
      simp only [escList, List.nil_append, he, List.cons_append, List.append_assoc] at h
      injection h with h1 h2
      exact hx h1
    | cons d ds =>
      simp only [escList, List.append_assoc] at h
      obtain ⟨hcd, hrest⟩ := escChar_append_inj c d _ _ h
      obtain ⟨hs, hr⟩ := ih ds r1 r2 hrest
      exact ⟨by rw [hcd, hs], hr⟩

theorem encTuple_status_inj (t1 t2 : NormEvent) (R : List Char)
    (htok : t1.token = t2.token) (hdate : t1.date = t2.date) (htime : t1.time = t2.time)
    (h : encTuple t1 ++ R = encTuple t2 ++ R) : t1.status = t2.status := by
  unfold encTuple quotedChars at h
  rw [htok, hdate, htime] at h
  simp only [List.cons_append, List.append_assoc, List.nil_append, List.cons.injEq,
    true_and, List.append_right_inj] at h
  obtain ⟨hs, -⟩ := escList_cancel _ _ _ _ h
  exact String.ext hs

theorem encItems_cons_ne (e : NormEvent) (l : List NormEvent) (h : l ≠ []) :
    encItems (e :: l) = encTuple e ++ ',' :: encItems l := by
  cases l with
  | nil => exact absurd rfl h
  | cons a t => rfl

theorem encItems_status_inj : ∀ (xs : List NormEvent) (t t2 : NormEvent)
    (ys : List NormEvent) (R : List Char),
    t.token = t2.token → t.date = t2.date → t.time = t2.time →
    encItems (xs ++ t :: ys) ++ R = encItems (xs ++ t2 :: ys) ++ R →
    t.status = t2.status := by
  intro xs
  induction xs with
  | nil =>
    intro t t2 ys R htok hdate htime h
    cases ys with
    | nil =>
      simp only [List.nil_append, encItems] at h
      exact encTuple_status_inj _ _ R htok hdate htime h
    | cons y ys2 =>
      rw [List.nil_append, List.nil_append, encItems_cons_ne t _ (by simp),
        encItems_cons_ne t2 _ (by simp)] at h
      simp only [List.append_assoc, List.cons_append] at h
      exact encTuple_status_inj _ _ _ htok hdate htime h
  | cons x xs2 ih =>
    intro t t2 ys R htok hdate htime h
    rw [List.cons_append, List.cons_append, encItems_cons_ne _ _ (by simp),
      encItems_cons_ne _ _ (by simp)] at h
    simp only [List.append_assoc] at h
    have h2 := List.append_cancel_left h
    injection h2 with h3 h4
    exact ih t t2 ys R htok hdate htime (by simpa [List.append_assoc] using h4)

/-- Changing one tuple's status to a different value changes the
fingerprint. -/
theorem jsonTuples_status_ne (xs ys : List NormEvent) (t : NormEvent) (s2 : String)
    (hne : s2 ≠ t.status) :
    jsonTuples (xs ++ t :: ys) ≠ jsonTuples (xs ++ { t with status := s2 } :: ys) := by
  intro heq
  unfold jsonTuples at heq
  have hl : '[' :: (encItems (xs ++ t :: ys) ++ [']']) =
      '[' :: (encItems (xs ++ { t with status := s2 } :: ys) ++ [']']) :=
    congrArg String.data heq
  injection hl with h1 h2
  exact hne (encItems_status_inj xs t { t with status := s2 } ys [']'] rfl rfl rfl h2).symm

/-! ## Fetch pipeline and the `GET /fetch-data` cache orchestration -/

/-- Raw upstream response body: the `airdrops` array (possibly absent) and
all other top-level passthrough fields (opaque). -/
structure UpstreamPayload where
  airdrops : Option (List RawEvent)
  extra : String
deriving DecidableEq, Repr

/-- `fetchDataFromAPI`: on upstream success, process every event (an absent
`airdrops` field makes `processAirdropStatus(undefined)` throw, and a
processing throw propagates), sort, and reattach the passthrough fields;
every failure inside the `try` is rethrown with the source's message
prefix. -/
def fetchDataFromAPI (now tz : Int) (up : Except String UpstreamPayload) :
    Except String FetchedData :=
  let inner : Except String FetchedData :=
    match up with
    | Except.error e => Except.error e
    | Except.ok p =>
      match p.airdrops with
      | none => Except.error ("TypeError")
      | some l =>
        match processAirdropStatus now tz l with
        | none => Except.error ("RangeError")
        | some ns => Except.ok { airdrops := some (jsSortEvents ns), extra := p.extra }
  match inner with
  | Except.error e => Except.error (("无法访问目标接口: ") ++ e)
  | Except.ok d => Except.ok d

/-- The module-level mutable state: `cachedData`, `lastFetchTime`,
`previousDataHash`. -/
structure ServerState where
  cachedData : Option FetchedData
  lastFetchTime : Option Int
  previousDataHash : Option String
deriving DecidableEq, Repr

/-- Responses of `GET /fetch-data`: a cache hit returns the cached payload
as-is; a live refresh returns the payload annotated with the `hasChanges`
flag and the `lastUpdateTime` instant (ISO rendering elided); an upstream
failure is the 500 error body with its timestamp. -/
inductive FetchResponse where
  | cached (d : FetchedData)
  | fresh (d : FetchedData) (hasChanges : Bool) (lastUpdateTime : Int)
  | failure (message : String) (timestamp : Int)
deriving DecidableEq, Repr

/-- The refresh path of the handler: fetch, detect changes, replace the
cache slot, annotate the response. -/
def fetchRefresh (now tz : Int) (up : Except String UpstreamPayload) (st : ServerState) :
    FetchResponse × ServerState × Bool :=
  match fetchDataFromAPI now tz up with
  | Except.error e => (FetchResponse.failure e now, st, true)
  | Except.ok d =>
    let r := detectDataChanges st.previousDataHash d
    (FetchResponse.fresh d r.1 now,
      { cachedData := some d, lastFetchTime := some now, previousDataHash := r.2 }, true)

/-- The `GET /fetch-data` handler (lines 183-221 of the source).  Returns
the response, the new state, and whether an upstream fetch was attempted. -/
def fetchDataRoute (now tz : Int) (up : Except String UpstreamPayload)
    (st : ServerState) : FetchResponse × ServerState × Bool :=
  match st.cachedData, st.lastFetchTime with
  | some d, some t =>
    if now - t < 5 * 60 * 1000 then (FetchResponse.cached d, st, false)
    else fetchRefresh now tz up st
  | some _, none => fetchRefresh now tz up st
  | none, _ => fetchRefresh now tz up st

/-! ## Generic facts about the resolver -/

theorem processOne_eq_some (now tz : Int) (a : RawEvent) (n : NormEvent)
    (h : processOne now tz a = some n) :
    ∃ d2 t2, effFields tz a = some (d2, t2) ∧
      n = { token := a.token, phase := a.phase, date := d2, time := t2,
            status := (jsStatus now tz d2 t2).getD a.status,
            original_status := if truthyS d2 then some a.status else none } := by
  unfold processOne at h
  cases he : effFields tz a with
  | none =>
    rw [he] at h
    exact absurd h (by simp)
  | some p =>
    obtain ⟨d2, t2⟩ := p
    rw [he] at h
    exact ⟨d2, t2, rfl, (Option.some.inj h).symm⟩

theorem jsStatus_of_truthy (now tz : Int) (d2 t2 : Option String)
    (hd : truthyS d2 = true) : ∃ s, jsStatus now tz d2 t2 = some s := by
  unfold jsStatus
  rw [if_pos hd]
  exact ⟨_, rfl⟩

/-- C6: in every branch of the resolver's status computation (equivalently,
whenever the effective date is truthy and a computed status exists), the
output's `original_status` is exactly the raw event's upstream `status`. -/
theorem claim6_original_status (now tz : Int) (a : RawEvent) (n : NormEvent)
    (hp : processOne now tz a = some n) (hd : truthyS n.date = true) :
    n.original_status = some a.status := by
  obtain ⟨d2, t2, he, hn⟩ := processOne_eq_some now tz a n hp
  subst hn
  simp only at hd ⊢
  rw [if_pos hd]

theorem claim6_original_status_witness :
    (truthyS (some ("2024-01-01")) = true) ∧
    (processOne 1704110400000 0
        { token := "D", phase := some 1, date := some ("2024-01-01"),
          time := some ("12:00"), status := "upstream" } =
      some { token := "D", phase := some 1, date := some ("2024-01-01"),
             time := some ("12:00"), status := "completed",
             original_status := some ("upstream") }) ∧
    (some ("upstream") : Option String) = some ("upstream") := by
  refine ⟨by decide, by decide, ?_⟩
  exact claim6_original_status 1704110400000 0
    { token := "D", phase := some 1, date := some ("2024-01-01"),
      time := some ("12:00"), status := "upstream" }
    { token := "D", phase := some 1, date := some ("2024-01-01"),
      time := some ("12:00"), status := "completed",
      original_status := some ("upstream") }
    (by decide) (by decide)

/-- C3: the computed status never depends on the upstream status value.
Two raw events that agree on phase, date and time and differ only in
`status` either both make the resolver throw or both succeed with the same
effective date/time; and whenever a status is computed (truthy effective
date) the two computed statuses are identical. -/
theorem claim3_status_independent (now tz : Int) (a : RawEvent) (s1 s2 : String) :
    (processOne now tz { a with status := s1 } = none ↔
      processOne now tz { a with status := s2 } = none) ∧
    (∀ n1 n2, processOne now tz { a with status := s1 } = some n1 →
      processOne now tz { a with status := s2 } = some n2 →
      n1.date = n2.date ∧ n1.time = n2.time ∧
      (truthyS n1.date = true → n1.status = n2.status)) := by
  have he : effFields tz { a with status := s1 } = effFields tz { a with status := s2 } := rfl
  constructor
  · unfold processOne
    rw [he]
    cases (effFields tz { a with status := s2 }) with
    | none => simp
    | some p =>
      obtain ⟨d2, t2⟩ := p
      simp
  · intro n1 n2 h1 h2
    obtain ⟨d2, t2, he1, hn1⟩ := processOne_eq_some _ _ _ _ h1
    obtain ⟨d2b, t2b, he2, hn2⟩ := processOne_eq_some _ _ _ _ h2
    rw [he] at he1
    have hq := Option.some.inj (he1.symm.trans he2)
    have hd : d2 = d2b := congrArg Prod.fst hq
    have ht : t2 = t2b := congrArg Prod.snd hq
    rw [← hd, ← ht] at hn2
    subst hn1
    subst hn2
    refine ⟨rfl, rfl, ?_⟩
    intro htr
    simp only at htr ⊢
    obtain ⟨s, hs⟩ := jsStatus_of_truthy now tz d2 t2 htr
    simp only [hs, Option.getD_some]

def c3raw : RawEvent :=
  { token := "C3", phase := some 1, date := some ("2024-01-01"),
    time := some ("12:00"), status := "ignored" }

def c3outA : NormEvent :=
  { token := "C3", phase := some 1, date := some ("2024-01-01"),
    time := some ("12:00"), status := "completed", original_status := some ("live") }

def c3outB : NormEvent :=
  { token := "C3", phase := some 1, date := some ("2024-01-01"),
    time := some ("12:00"), status := "completed", original_status := some ("tge") }

theorem claim3_status_independent_witness :
    c3outA.date = c3outB.date ∧ c3outA.time = c3outB.time ∧
    (truthyS c3outA.date = true → c3outA.status = c3outB.status) :=
  (claim3_status_independent 1704110400000 0 c3raw ("live") ("tge")).2
    c3outA c3outB (by decide) (by decide)

theorem jsStatus_none_date (now tz : Int) (d2 t2 : Option String)
    (hd : ¬ truthyS d2 = true) : jsStatus now tz d2 t2 = none := by
  unfold jsStatus
  rw [if_neg hd]

theorem jsStatus_bad_parse (now tz : Int) (d2 t2 : Option String)
    (hd : truthyS d2 = true) (hp : jsParseDate (orEmpty d2) = none) :
    jsStatus now tz d2 t2 = some ("announced") := by
  unfold jsStatus
  rw [if_pos hd, hp]

theorem jsStatus_good_parse (now tz : Int) (d2 t2 : Option String) (p : Int)
    (hd : truthyS d2 = true) (hp : jsParseDate (orEmpty d2) = some p) :
    jsStatus now tz d2 t2 = some (
      if localDayStart p tz < localDayStart now tz then ("completed")
      else if localDayStart p tz = localDayStart now tz then
        (if truthyS t2 = true then
          (if jsSetHM p tz (timeComp (orEmpty t2) 0) (timeComp (orEmpty t2) 1) ≤ now
           then ("completed") else ("announced"))
         else ("announced"))
      else ("announced")) := by
  unfold jsStatus
  rw [if_pos hd, hp]

theorem jsStatus_completed_mono (now1 now2 tz : Int) (d2 t2 : Option String)
    (hle : now1 ≤ now2) (h : jsStatus now1 tz d2 t2 = some ("completed")) :
    jsStatus now2 tz d2 t2 = some ("completed") := by
  by_cases hd : truthyS d2 = true
  · have hmono : localDayStart now1 tz ≤ localDayStart now2 tz := by
      unfold localDayStart
      obtain ⟨a1, a2, a3⟩ := edivSpec (now1 + tz) 86400000 (by norm_num)
      obtain ⟨b1, b2, b3⟩ := edivSpec (now2 + tz) 86400000 (by norm_num)
      omega
    cases hp : jsParseDate (orEmpty d2) with
    | none =>
      rw [jsStatus_bad_parse now1 tz d2 t2 hd hp] at h
      exact absurd (Option.some.inj h) (by decide)
    | some p =>
      rw [jsStatus_good_parse now1 tz d2 t2 p hd hp] at h
      rw [jsStatus_good_parse now2 tz d2 t2 p hd hp]
      have hh := Option.some.inj h
      refine congrArg some ?_
      split_ifs at hh with c1 c2 c3 c4
      · rw [if_pos (lt_of_lt_of_le c1 hmono)]
      · by_cases dA : localDayStart p tz < localDayStart now2 tz
        · rw [if_pos dA]
        · have he2 : localDayStart p tz = localDayStart now2 tz := by omega
          rw [if_neg dA, if_pos he2, if_pos c3, if_pos (le_trans c4 hle)]
      · exact absurd hh (by decide)
      · exact absurd hh (by decide)
      · exact absurd hh (by decide)
  · rw [jsStatus_none_date now1 tz d2 t2 hd] at h
    exact absurd h (by simp)

/-- C4: for a fixed raw event the computed status is monotone in the
evaluation instant: once `completed`, later evaluations stay `completed`
(equivalently, the resolver never goes back from completed to announced). -/
theorem claim4_status_monotone (now1 now2 tz : Int) (a : RawEvent) (n1 n2 : NormEvent)
    (hle : now1 ≤ now2) (h1 : processOne now1 tz a = some n1)
    (h2 : processOne now2 tz a = some n2) (hc : n1.status = "completed") :
    n2.status = "completed" := by
  obtain ⟨d2, t2, he1, hn1⟩ := processOne_eq_some _ _ _ _ h1
  obtain ⟨d2b, t2b, he2, hn2⟩ := processOne_eq_some _ _ _ _ h2
  have hq := Option.some.inj (he1.symm.trans he2)
  have hd : d2 = d2b := congrArg Prod.fst hq
  have ht : t2 = t2b := congrArg Prod.snd hq
  rw [← hd, ← ht] at hn2
  subst hn1
  subst hn2
  simp only at hc ⊢
  by_cases htr : truthyS d2 = true
  · obtain ⟨s1, hs1⟩ := jsStatus_of_truthy now1 tz d2 t2 htr
    rw [hs1, Option.getD_some] at hc
    subst hc
    rw [jsStatus_completed_mono now1 now2 tz d2 t2 hle hs1, Option.getD_some]
  · have hnone : jsStatus now1 tz d2 t2 = none := by
      unfold jsStatus
      rw [if_neg htr]
    have hnone2 : jsStatus now2 tz d2 t2 = none := by
      unfold jsStatus
      rw [if_neg htr]
    rw [hnone, Option.getD_none] at hc
    rw [hnone2, Option.getD_none]
    exact hc

theorem claim4_status_monotone_witness :
    (1704110400000 : Int) ≤ 1704114000000 ∧
    ({ token := "C4", phase := some 1, date := some ("2024-01-01"),
       time := some ("12:00"), status := "completed",
       original_status := some ("x") } : NormEvent).status = "completed" :=
  ⟨by decide,
    claim4_status_monotone 1704110400000 1704114000000 0
      { token := "C4", phase := some 1, date := some ("2024-01-01"),
        time := some ("12:00"), status := "x" }
      { token := "C4", phase := some 1, date := some ("2024-01-01"),
        time := some ("12:00"), status := "completed", original_status := some ("x") }
      { token := "C4", phase := some 1, date := some ("2024-01-01"),
        time := some ("12:00"), status := "completed", original_status := some ("x") }
      (by decide) (by decide) (by decide) (by decide)⟩

theorem truthyS_some (s : String) (h : s ≠ "") : truthyS (some s) = true := by
  unfold truthyS
  cases he : s.isEmpty with
  | false => simp [he]
  | true => exact absurd ((String.isEmpty_iff s).mp he) h

def c5bad : RawEvent :=
  { token := "X", phase := none, date := some ("not-a-date"), time := none,
    status := "live" }

def c5badP2 : RawEvent :=
  { token := "X", phase := some 2, date := some ("not-a-date"), time := none,
    status := "live" }

/-- C5 counterexample: a malformed date string is truthy, so it does enter
the status block and the event is assigned computed status `announced`
with `original_status` set, rather than passing through with the upstream
status only. -/
theorem claim5_counterexample :
    (processOne 0 0 c5bad =
      some { token := "X", phase := none, date := some ("not-a-date"), time := none,
             status := "announced", original_status := some ("live") }) ∧
    ("announced" : String) ≠ "live" := ⟨by decide, by decide⟩

/-- C5 (amended): a malformed date does not crash the resolver when no
phase-2 shift applies, but the event is not treated as date-absent: both
day comparisons on the invalid date fail and the event is assigned
`announced`, with `original_status` set to the upstream status.  With
`phase == 2` the resolver does throw (`toISOString` on an invalid date). -/
theorem claim5_amended (now tz : Int) (a : RawEvent) (s : String)
    (hd : a.date = some s) (hs : s ≠ "") (hbad : parseYMD s = none) :
    (a.phase ≠ some 2 → processOne now tz a =
      some { token := a.token, phase := a.phase, date := a.date, time := a.time,
             status := "announced", original_status := some a.status }) ∧
    (a.phase = some 2 → processOne now tz a = none) := by
  have htr : truthyS a.date = true := by
    rw [hd]
    exact truthyS_some s hs
  have hjpd : jsParseDate (orEmpty a.date) = none := by
    rw [hd]
    unfold jsParseDate orEmpty
    rw [hbad]
    rfl
  constructor
  · intro hph
    have hst : jsStatus now tz a.date a.time = some ("announced") :=
      jsStatus_bad_parse now tz a.date a.time htr hjpd
    unfold processOne effFields
    rw [if_neg (fun hc => hph hc.1)]
    simp only [hst, Option.getD_some, htr, if_pos]
  · intro hph
    have hpdt : jsParseDateTime (orEmpty a.date)
        (if truthyS a.time then orEmpty a.time else ("00:00")) tz = none := by
      rw [hd]
      unfold jsParseDateTime orEmpty
      rw [hbad]
    unfold processOne effFields
    rw [if_pos ⟨hph, htr⟩, hpdt]

theorem claim5_amended_witness :
    (processOne 7 3600000 c5bad =
      some { token := "X", phase := none, date := some ("not-a-date"), time := none,
             status := "announced", original_status := some ("live") }) ∧
    processOne 7 3600000 c5badP2 = none :=
  ⟨(claim5_amended 7 3600000 c5bad ("not-a-date") rfl (by decide) (by decide)).1
      (by decide),
   (claim5_amended 7 3600000 c5badP2 ("not-a-date") rfl (by decide) (by decide)).2 rfl⟩

/-! ## Claim 2: the phase-2 eighteen-hour shift -/

theorem parseHM_shape (s : String) (ms : Int) (h : parseHM s = some ms) :
    Int.emod ms 60000 = 0 := by
  unfold parseHM at h
  split at h
  all_goals try exact Option.noConfusion h
  split at h
  all_goals try exact Option.noConfusion h
  split at h
  all_goals try exact Option.noConfusion h
  dsimp only at h
  split at h
  all_goals try exact Option.noConfusion h
  rename_i x1 x2 y1 y2 e1 e2 e3 e4 hif
  have hv := Option.some.inj h
  rw [← hv]
  obtain ⟨g1, g2, g3⟩ :=
    edivSpec (↑((x1 * 10 + x2) * 3600000 + (y1 * 10 + y2) * 60000)) 60000
      (by norm_num)
  omega

theorem jsParseDateTime_shape (ds ts : String) (tz t : Int)
    (h : jsParseDateTime ds ts tz = some t) : Int.emod (t + tz) 60000 = 0 := by
  unfold jsParseDateTime at h
  split at h
  · rename_i p ms hp hms
    have h60 := parseHM_shape ts ms hms
    have hv := Option.some.inj h
    obtain ⟨e1, e2, e3⟩ := edivSpec (t + tz) 60000 (by norm_num)
    obtain ⟨f1, f2, f3⟩ := edivSpec ms 60000 (by norm_num)
    omega
  · exact Option.noConfusion h

theorem parseYMD_isoDateOf (t : Int) (h0 : 0 ≤ cfdY (Int.ediv t 86400000))
    (h1 : cfdY (Int.ediv t 86400000) ≤ 9999) :
    parseYMD (isoDateOf t) =
      some (cfdY (Int.ediv t 86400000), cfdM (Int.ediv t 86400000),
        cfdD (Int.ediv t 86400000)) := by
  obtain ⟨v1, v2, v3, v4, v5⟩ := civilFromDays_spec (Int.ediv t 86400000)
  unfold isoDateOf isoDateChars
  exact parseYMD_ymdChars _ _ _ h0 h1 v1 v2 v3 v4

/-- Printing an instant through `toISOString().slice(0,10)` and
`toTimeString().slice(0,5)` at UTC and reparsing the pair recovers the
instant, provided it is a whole minute in the representable year range. -/
theorem jsParseDateTime_roundtrip (t : Int) (h0 : 0 ≤ cfdY (Int.ediv t 86400000))
    (h1 : cfdY (Int.ediv t 86400000) ≤ 9999) (hw : Int.emod t 60000 = 0) :
    jsParseDateTime (isoDateOf t) (localHMOf t 0) 0 = some t := by
  obtain ⟨v1, v2, v3, v4, v5⟩ := civilFromDays_spec (Int.ediv t 86400000)
  unfold jsParseDateTime
  rw [parseYMD_isoDateOf t h0 h1, parseHM_localHMOf t 0]
  simp only [Int.add_zero]
  rw [v5]
  congr 1
  obtain ⟨a1, a2, a3⟩ := edivSpec t 86400000 (by norm_num)
  obtain ⟨b1, b2, b3⟩ := edivSpec (Int.emod t 86400000) 60000 (by norm_num)
  obtain ⟨c1, c2, c3⟩ := edivSpec t 60000 (by norm_num)
  omega

def c2raw : RawEvent :=
  { token := "A", phase := some 2, date := some ("2024-01-01"), time := some ("10:00"),
    status := "tge" }

/-- C2 counterexample: on a host at UTC+8 (`tz = 28800000`), the phase-2
record `date = 2024-01-01, time = 10:00` (local instant 1704074400000) is
rewritten to `date = 2024-01-01, time = 04:00` — not `2024-01-02` as the
claim's day-rollover example demands — because the code takes the date from
`toISOString()` (UTC) but the time from `toTimeString()` (local).  Reparsing
the effective fields in the input's own representation yields 1704052800000,
which is not the input instant plus 18 hours. -/
theorem claim2_counterexample :
    (jsParseDateTime (orEmpty c2raw.date) (orEmpty c2raw.time) 28800000 =
      some 1704074400000) ∧
    ((processOne 1704074400000 28800000 c2raw).map (fun n => (n.date, n.time)) =
      some (some ("2024-01-01"), some ("04:00"))) ∧
    (jsParseDateTime ("2024-01-01") ("04:00") 28800000 = some 1704052800000) ∧
    ((1704052800000 : Int) ≠ 1704074400000 + 64800000) := by
  refine ⟨by decide, by decide, by decide, by decide⟩

/-- C2 (amended): on a host at UTC (`tz = 0`), for a phase-2 record with a
truthy date whose `date + 'T' + (time || '00:00')` parses to instant `T`,
the effective fields are exactly the calendar date and minute-truncated
clock time of `T + 18h` (years 0..9999), and reparsing them recovers
`T + 18h` — the shift is exactly 18 hours, including day rollover. -/
theorem claim2_amended (now : Int) (a : RawEvent) (n : NormEvent) (T : Int)
    (hp : a.phase = some 2) (hd : truthyS a.date = true)
    (hT : jsParseDateTime (orEmpty a.date)
        (if truthyS a.time then orEmpty a.time else ("00:00")) 0 = some T)
    (h0 : 0 ≤ cfdY (Int.ediv (T + 64800000) 86400000))
    (h1 : cfdY (Int.ediv (T + 64800000) 86400000) ≤ 9999)
    (hn : processOne now 0 a = some n) :
    n.date = some (isoDateOf (T + 64800000)) ∧
    n.time = some (localHMOf (T + 64800000) 0) ∧
    jsParseDateTime (orEmpty n.date) (orEmpty n.time) 0 = some (T + 64800000) := by
  have heff : effFields 0 a = some (some (isoDateOf (T + 64800000)),
      some (localHMOf (T + 64800000) 0)) := by
    unfold effFields
    rw [if_pos ⟨hp, hd⟩, hT]
    dsimp only
    rw [jsSetHoursSingle_add18]
  obtain ⟨d2, t2, he, hrec⟩ := processOne_eq_some now 0 a n hn
  have hq := Option.some.inj (he.symm.trans heff)
  have hd2 : d2 = some (isoDateOf (T + 64800000)) := congrArg Prod.fst hq
  have ht2 : t2 = some (localHMOf (T + 64800000) 0) := congrArg Prod.snd hq
  subst hd2; subst ht2; subst hrec
  have hs := jsParseDateTime_shape _ _ 0 T hT
  have hw : Int.emod (T + 64800000) 60000 = 0 := by
    obtain ⟨u1, u2, u3⟩ := edivSpec (T + 0) 60000 (by norm_num)
    obtain ⟨w1, w2, w3⟩ := edivSpec (T + 64800000) 60000 (by norm_num)
    omega
  refine ⟨rfl, rfl, ?_⟩
  dsimp only [orEmpty]
  exact jsParseDateTime_roundtrip (T + 64800000) h0 h1 hw

def c2out : NormEvent :=
  { token := "A", phase := some 2, date := some ("2024-01-02"), time := some ("04:00"),
    status := "announced", original_status := some ("tge") }

theorem claim2_amended_witness :
    (c2raw.phase = some 2 ∧ truthyS c2raw.date = true ∧
     jsParseDateTime (orEmpty c2raw.date)
        (if truthyS c2raw.time then orEmpty c2raw.time else ("00:00")) 0 =
       some 1704103200000 ∧
     0 ≤ cfdY (Int.ediv (1704103200000 + 64800000) 86400000) ∧
     cfdY (Int.ediv (1704103200000 + 64800000) 86400000) ≤ 9999 ∧
     processOne 0 0 c2raw = some c2out) ∧
    (c2out.date = some (isoDateOf (1704103200000 + 64800000)) ∧
     c2out.time = some (localHMOf (1704103200000 + 64800000) 0) ∧
     jsParseDateTime (orEmpty c2out.date) (orEmpty c2out.time) 0 =
       some (1704103200000 + 64800000)) :=
  ⟨⟨by decide, by decide, by decide, by decide, by decide, by decide⟩,
   claim2_amended 0 c2raw c2out 1704103200000 (by decide) (by decide) (by decide)
     (by decide) (by decide) (by decide)⟩

/-! ## Claim 1: the status decision rule -/

theorem jsParseDate_shape (s : String) (pd : Int) (h : jsParseDate s = some pd) :
    Int.emod pd 86400000 = 0 := by
  unfold jsParseDate at h
  cases hy : parseYMD s with
  | none => rw [hy] at h; exact Option.noConfusion h
  | some p =>
    rw [hy, Option.map_some'] at h
    have hv := Option.some.inj h
    rw [← hv]
    exact Int.mul_emod_left _ _

/-- C1: for an output event with a truthy, well-formed effective date
(UTC-midnight instant `pd`), under a host UTC offset `tz` with
`0 ≤ tz < 24h`, the computed status is `completed` or `announced`, and it
is `completed` exactly when the effective calendar day is strictly before
the local day of `now`, or is that same day, an effective time is present,
and the effective date+time instant (missing or `NaN` components read as 0)
is `≤ now` (inclusive boundary).  Same-day with no time, or a later day,
yields `announced`. -/
theorem claim1_status_rule (now tz : Int) (a : RawEvent) (n : NormEvent) (pd : Int)
    (htz0 : 0 ≤ tz) (htz1 : tz < 86400000)
    (hn : processOne now tz a = some n) (hd : truthyS n.date = true)
    (hp : jsParseDate (orEmpty n.date) = some pd) :
    (n.status = "completed" ∨ n.status = "announced") ∧
    (n.status = "completed" ↔
      (Int.ediv pd 86400000 < Int.ediv (now + tz) 86400000 ∨
       (Int.ediv pd 86400000 = Int.ediv (now + tz) 86400000 ∧ truthyS n.time = true ∧
        pd + timeComp (orEmpty n.time) 0 * 3600000 + timeComp (orEmpty n.time) 1 * 60000
          - tz ≤ now))) := by
  obtain ⟨d2, t2, he, hrec⟩ := processOne_eq_some now tz a n hn
  subst hrec
  simp only at hd hp ⊢
  rw [jsStatus_good_parse now tz d2 t2 pd hd hp, Option.getD_some]
  have hsh : Int.emod pd 86400000 = 0 := jsParseDate_shape _ _ hp
  obtain ⟨a1, a2, a3⟩ := edivSpec (pd + tz) 86400000 (by norm_num)
  obtain ⟨b1, b2, b3⟩ := edivSpec (now + tz) 86400000 (by norm_num)
  obtain ⟨c1, c2, c3⟩ := edivSpec pd 86400000 (by norm_num)
  have hL1 : localDayStart pd tz = pd - tz := by unfold localDayStart; omega
  have hL2 : localDayStart now tz =
      Int.ediv (now + tz) 86400000 * 86400000 - tz := rfl
  have hS : jsSetHM pd tz (timeComp (orEmpty t2) 0) (timeComp (orEmpty t2) 1) =
      pd + timeComp (orEmpty t2) 0 * 3600000 + timeComp (orEmpty t2) 1 * 60000 - tz := by
    unfold jsSetHM localDayStart
    omega
  split_ifs with q1 q2 q3 q4
  · rw [hL1, hL2] at q1
    exact ⟨Or.inl rfl, iff_of_true rfl (Or.inl (by omega))⟩
  · rw [hL1, hL2] at q2
    rw [hS] at q4
    exact ⟨Or.inl rfl, iff_of_true rfl (Or.inr ⟨by omega, q3, by omega⟩)⟩
  · rw [hL1, hL2] at q1 q2
    rw [hS] at q4
    refine ⟨Or.inr rfl, iff_of_false (by decide) ?_⟩
    rintro (h | ⟨he2, ht2, hle2⟩)
    · omega
    · omega
  · rw [hL1, hL2] at q1 q2
    refine ⟨Or.inr rfl, iff_of_false (by decide) ?_⟩
    rintro (h | ⟨he2, ht2, hle2⟩)
    · omega
    · exact absurd ht2 q3
  · rw [hL1, hL2] at q1 q2
    refine ⟨Or.inr rfl, iff_of_false (by decide) ?_⟩
    rintro (h | ⟨he2, ht2, hle2⟩)
    · omega
    · omega

def c1raw : RawEvent :=
  { token := "B", phase := some 1, date := some ("2024-01-01"), time := some ("12:00"),
    status := "up" }

def c1out : NormEvent :=
  { token := "B", phase := some 1, date := some ("2024-01-01"), time := some ("12:00"),
    status := "completed", original_status := some ("up") }

theorem claim1_status_rule_witness :
    ((0 : Int) ≤ 0 ∧ (0 : Int) < 86400000 ∧
     processOne 1704110400000 0 c1raw = some c1out ∧
     truthyS c1out.date = true ∧
     jsParseDate (orEmpty c1out.date) = some 1704067200000) ∧
    ((c1out.status = "completed" ∨ c1out.status = "announced") ∧
     (c1out.status = "completed" ↔
       (Int.ediv 1704067200000 86400000 < Int.ediv (1704110400000 + 0) 86400000 ∨
        (Int.ediv 1704067200000 86400000 = Int.ediv (1704110400000 + 0) 86400000 ∧
         truthyS c1out.time = true ∧
         (1704067200000 : Int) + timeComp (orEmpty c1out.time) 0 * 3600000 +
           timeComp (orEmpty c1out.time) 1 * 60000 - 0 ≤ 1704110400000)))) :=
  ⟨⟨by decide, by decide, by decide, by decide, by decide⟩,
   claim1_status_rule 1704110400000 0 c1raw c1out 1704067200000 (by decide) (by decide)
     (by decide) (by decide) (by decide)⟩

/-! ## Claim 7: the ordering of the normalized collection -/

/-- The order the specification describes: descending by effective date
(lexicographic), on equal dates timeless events first, among timed events
descending by time (lexicographic). -/
def specOrdLe (a b : NormEvent) : Prop :=
  dateKey b < dateKey a ∨ (dateKey a = dateKey b ∧
    (truthyS a.time = false ∨ (truthyS a.time = true ∧ truthyS b.time = true ∧
      orEmpty b.time ≤ orEmpty a.time)))

def c7e1 : NormEvent :=
  { token := "P", phase := none, date := some ("2024-01-02"), time := none,
    status := "announced", original_status := none }

def c7e2 : NormEvent :=
  { token := "Q", phase := none, date := some ("2024-01-02"), time := some ("09:00"),
    status := "announced", original_status := none }

def c7e3 : NormEvent :=
  { token := "R", phase := none, date := some ("2024-01-01"), time := some ("23:00"),
    status := "announced", original_status := none }

/-- C7: the sort is a permutation of the input, pairwise ordered by the
specification's order (date descending, timeless first on a tie, then time
descending); events with equal dates and no times keep their relative input
order (stability); and the claim's three-event example sorts into exactly
the stated order, also from a scrambled input. -/
theorem claim7_sort_order :
    (∀ l : List NormEvent,
      (jsSortEvents l).Perm l ∧ (jsSortEvents l).Pairwise specOrdLe) ∧
    (∀ (P : NormEvent → Bool) (l : List NormEvent),
      (∀ a b, P a = true → P b = true →
        dateKey a = dateKey b ∧ truthyS a.time = false ∧ truthyS b.time = false) →
      (jsSortEvents l).filter P = l.filter P) ∧
    jsSortEvents [c7e1, c7e2, c7e3] = [c7e1, c7e2, c7e3] ∧
    jsSortEvents [c7e3, c7e1, c7e2] = [c7e1, c7e2, c7e3] := by
  have hlt : ("2024-01-01" : String) < ("2024-01-02") := by
    rw [String.lt_iff_toList_lt]; decide
  have hnlt : ¬ (("2024-01-02" : String) < ("2024-01-01")) := by
    rw [String.lt_iff_toList_lt]; decide
  have hne : ("2024-01-01" : String) ≠ ("2024-01-02") := by decide
  have hs12 : sortLE c7e1 c7e2 := by
    rw [sortLE_iff]; exact Or.inr ⟨rfl, Or.inl rfl⟩
  have hs23 : sortLE c7e2 c7e3 := by
    rw [sortLE_iff]; exact Or.inl hlt
  have hn31 : ¬ sortLE c7e3 c7e1 := by
    rw [sortLE_iff]
    rintro (h | ⟨h, _⟩)
    · exact hnlt h
    · exact hne h
  have hn32 : ¬ sortLE c7e3 c7e2 := by
    rw [sortLE_iff]
    rintro (h | ⟨h, _⟩)
    · exact hnlt h
    · exact hne h
  have e23 : List.orderedInsert sortLE c7e2 [c7e3] = [c7e2, c7e3] := by
    simp only [List.orderedInsert]
    rw [if_pos hs23]
  have e12 : List.orderedInsert sortLE c7e1 [c7e2, c7e3] = [c7e1, c7e2, c7e3] := by
    simp only [List.orderedInsert]
    rw [if_pos hs12]
  have e12b : List.orderedInsert sortLE c7e1 [c7e2] = [c7e1, c7e2] := by
    simp only [List.orderedInsert]
    rw [if_pos hs12]
  have e3 : List.orderedInsert sortLE c7e3 [c7e1, c7e2] = [c7e1, c7e2, c7e3] := by
    simp only [List.orderedInsert]
    rw [if_neg hn31, if_neg hn32]
  refine ⟨fun l => ⟨jsSortEvents_perm l, ?_⟩, fun P l hP => ?_, ?_, ?_⟩
  · exact (jsSortEvents_sorted l).imp (fun h => (sortLE_iff _ _).mp h)
  · refine jsSortEvents_stable P ?_ l
    intro a b ha hb
    obtain ⟨hd, hta, htb⟩ := hP a b ha hb
    rw [sortLE_iff]
    exact Or.inr ⟨hd, Or.inl hta⟩
  · show List.orderedInsert sortLE c7e1
        (List.orderedInsert sortLE c7e2 (List.orderedInsert sortLE c7e3 [])) = _
    rw [show List.orderedInsert sortLE c7e3 [] = [c7e3] from rfl, e23, e12]
  · show List.orderedInsert sortLE c7e3
        (List.orderedInsert sortLE c7e1 (List.orderedInsert sortLE c7e2 [])) = _
    rw [show List.orderedInsert sortLE c7e2 [] = [c7e2] from rfl, e12b, e3]

/-! ## Claim 10: missing dates in the comparator -/

theorem string_not_lt_empty (x : String) : ¬ x < "" := by
  intro h
  rw [String.lt_iff_toList_lt] at h
  generalize hg : x.toList = l at h
  cases h

theorem string_empty_lt (x : String) (hx : x ≠ "") : ("" : String) < x := by
  rw [String.lt_iff_toList_lt]
  cases hc : x.toList with
  | nil => exact absurd (String.ext hc) hx
  | cons c cs => exact List.nil_lt_cons c cs

/-- C10: the comparator reads a missing date as the empty string (replacing
`none` by `""` never changes a comparison); an event without a date sorts
strictly after every event with a nonempty date; and two dateless events
are compared by exactly the same time tie-break as two same-date events. -/
theorem claim10_missing_date_as_empty :
    (∀ a b : NormEvent, a.date = none →
      sortCmp a b = sortCmp { a with date := some ("") } b ∧
      sortCmp b a = sortCmp b { a with date := some ("") }) ∧
    (∀ a b : NormEvent, a.date = none → dateKey b ≠ "" →
      0 < sortCmp a b ∧ sortCmp b a < 0) ∧
    (∀ a b : NormEvent, a.date = none → b.date = none →
      sortCmp a b =
        (if !truthyS a.time && truthyS b.time then -1
         else if truthyS a.time && !truthyS b.time then 1
         else if truthyS a.time && truthyS b.time then
           cmpStr (orEmpty b.time) (orEmpty a.time)
         else 0)) := by
  refine ⟨fun a b ha => ?_, fun a b ha hb => ?_, fun a b ha hb => ?_⟩
  · obtain ⟨tok, ph, d, ti, st, os⟩ := a
    cases ha
    exact ⟨rfl, rfl⟩
  · have hka : dateKey a = "" := by
      unfold dateKey
      rw [ha]
      rfl
    have hne : dateKey a ≠ dateKey b := by
      rw [hka]
      exact fun h => hb h.symm
    constructor
    · unfold sortCmp
      rw [if_pos hne]
      unfold cmpStr
      rw [if_neg (by rw [hka]; exact string_not_lt_empty _),
        if_neg (by rw [hka]; exact fun h => hb h)]
      norm_num
    · unfold sortCmp
      rw [if_pos (fun h => hne h.symm)]
      unfold cmpStr
      rw [if_pos (by rw [hka]; exact string_empty_lt _ hb)]
      norm_num
  · have hka : dateKey a = "" := by
      unfold dateKey
      rw [ha]
      rfl
    have hkb : dateKey b = "" := by
      unfold dateKey
      rw [hb]
      rfl
    unfold sortCmp
    rw [if_neg (fun h => h (hka.trans hkb.symm))]

/-! ## Claim 8: the change fingerprint -/

/-- The projection the fingerprint serializes. -/
def tupleOf (e : NormEvent) : String × String × Option String × Option String :=
  (e.token, e.status, e.date, e.time)

theorem encTuple_congr (e1 e2 : NormEvent) (h : tupleOf e1 = tupleOf e2) :
    encTuple e1 = encTuple e2 := by
  have h1 : e1.token = e2.token := congrArg (fun p => p.1) h
  have h2 : e1.status = e2.status := congrArg (fun p => p.2.1) h
  have h3 : e1.date = e2.date := congrArg (fun p => p.2.2.1) h
  have h4 : e1.time = e2.time := congrArg (fun p => p.2.2.2) h
  unfold encTuple
  rw [h1, h2, h3, h4]

theorem encItems_congr (l1 : List NormEvent) : ∀ l2 : List NormEvent,
    l1.map tupleOf = l2.map tupleOf → encItems l1 = encItems l2 := by
  induction l1 with
  | nil =>
    intro l2 h
    cases l2 with
    | nil => rfl
    | cons b t2 => exact absurd h (by simp)
  | cons a t ih =>
    intro l2 h
    cases l2 with
    | nil => exact absurd h (by simp)
    | cons b t2 =>
      simp only [List.map_cons, List.cons.injEq] at h
      obtain ⟨h1, h2⟩ := h
      cases t with
      | nil =>
        cases t2 with
        | nil => exact encTuple_congr a b h1
        | cons c t2b => exact absurd h2 (by simp)
      | cons c tb =>
        cases t2 with
        | nil => exact absurd h2 (by simp)
        | cons d2 t2b =>
          rw [encItems_cons_ne a (c :: tb) (by simp),
            encItems_cons_ne b (d2 :: t2b) (by simp),
            encTuple_congr a b h1, ih (d2 :: t2b) h2]

theorem jsonTuples_ne_empty (l : List NormEvent) : jsonTuples l ≠ "" := by
  intro h
  exact List.noConfusion (congrArg String.data h)

/-- C8: the fingerprint depends only on the ordered (token, status, date,
time) tuples; with no stored prior the tracker stores the new fingerprint
and reports `false`; with a differing stored prior it reports `true` and
keeps the old stored fingerprint; with an identical prior it reports
`false`; and for a fixed collection the first call is `false`, an identical
second call is `false`, and a call with one tuple's status changed is
`true`. -/
theorem claim8_change_tracker :
    (∀ d1 d2 : FetchedData,
      Option.map (List.map tupleOf) d1.airdrops =
        Option.map (List.map tupleOf) d2.airdrops →
      generateDataHash d1 = generateDataHash d2) ∧
    (∀ d : FetchedData, detectDataChanges none d = (false, generateDataHash d)) ∧
    (∀ (s : String) (d : FetchedData), s ≠ "" → generateDataHash d ≠ some s →
      detectDataChanges (some s) d = (true, some s)) ∧
    (∀ (s : String) (d : FetchedData), generateDataHash d = some s →
      detectDataChanges (some s) d = (false, some s)) ∧
    (∀ (xs ys : List NormEvent) (t : NormEvent) (s2 ex1b ex2b : String),
      s2 ≠ t.status →
      (detectDataChanges none ⟨some (xs ++ t :: ys), ex1b⟩ =
        (false, some (jsonTuples (xs ++ t :: ys)))) ∧
      (detectDataChanges (some (jsonTuples (xs ++ t :: ys)))
          ⟨some (xs ++ t :: ys), ex1b⟩ =
        (false, some (jsonTuples (xs ++ t :: ys)))) ∧
      (detectDataChanges (some (jsonTuples (xs ++ t :: ys)))
          ⟨some (xs ++ { t with status := s2 } :: ys), ex2b⟩ =
        (true, some (jsonTuples (xs ++ t :: ys))))) := by
  have hNone : ∀ d : FetchedData, detectDataChanges none d = (false, generateDataHash d) := by
    intro d
    unfold detectDataChanges
    dsimp only
    rw [if_neg (fun h => Bool.noConfusion h.1)]
  have hSame : ∀ (s : String) (d : FetchedData), generateDataHash d = some s →
      detectDataChanges (some s) d = (false, some s) := by
    intro s d h
    unfold detectDataChanges
    dsimp only
    rw [if_neg (fun hc => hc.2 h), h]
  have hDiff : ∀ (s : String) (d : FetchedData), s ≠ "" → generateDataHash d ≠ some s →
      detectDataChanges (some s) d = (true, some s) := by
    intro s d hs hne
    unfold detectDataChanges
    dsimp only
    rw [if_pos ⟨truthyS_some s hs, hne⟩]
  refine ⟨fun d1 d2 h => ?_, hNone, hDiff, hSame, fun xs ys t s2 ex1b ex2b hne => ?_⟩
  · unfold generateDataHash
    cases h1 : d1.airdrops with
    | none =>
      cases h2 : d2.airdrops with
      | none => rfl
      | some l2 => rw [h1, h2] at h; exact absurd h (by simp)
    | some l1 =>
      cases h2 : d2.airdrops with
      | none => rw [h1, h2] at h; exact absurd h (by simp)
      | some l2 =>
        rw [h1, h2] at h
        simp only [Option.map_some', Option.some.injEq] at h
        dsimp only
        have hj : jsonTuples l1 = jsonTuples l2 := by
          unfold jsonTuples
          rw [encItems_congr l1 l2 h]
        rw [hj]
  · refine ⟨hNone _, hSame _ _ rfl, hDiff _ _ (jsonTuples_ne_empty _) ?_⟩
    intro hq
    exact jsonTuples_status_ne xs ys t s2 hne (Option.some.inj hq).symm

/-! ## Claim 9: cache freshness and the response frame -/

theorem fetchRefresh_fetched (now tz : Int) (up : Except String UpstreamPayload)
    (st : ServerState) : (fetchRefresh now tz up st).2.2 = true := by
  unfold fetchRefresh
  cases fetchDataFromAPI now tz up with
  | error e => rfl
  | ok d => rfl

/-- C9: when a snapshot exists and is younger than the 5-minute window, the
route performs no upstream fetch and returns the cached payload as-is (no
`hasChanges` / `lastUpdateTime` annotation) with the state unchanged; two
such calls inside the window return the identical payload and fetch
nothing; and a `fresh` (annotated) response only ever comes from a call
that did perform an upstream fetch. -/
theorem claim9_cache_freshness :
    (∀ (now tz : Int) (up : Except String UpstreamPayload) (st : ServerState)
       (d : FetchedData) (t : Int),
      st.cachedData = some d → st.lastFetchTime = some t → now - t < 5 * 60 * 1000 →
      fetchDataRoute now tz up st = (FetchResponse.cached d, st, false)) ∧
    (∀ (now1 now2 tz1 tz2 : Int) (up1 up2 : Except String UpstreamPayload)
       (st : ServerState) (d : FetchedData) (t : Int),
      st.cachedData = some d → st.lastFetchTime = some t →
      now1 - t < 5 * 60 * 1000 → now2 - t < 5 * 60 * 1000 →
      (fetchDataRoute now1 tz1 up1 st).1 = FetchResponse.cached d ∧
      (fetchDataRoute now2 tz2 up2 ((fetchDataRoute now1 tz1 up1 st).2.1)).1 =
        FetchResponse.cached d ∧
      (fetchDataRoute now1 tz1 up1 st).2.2 = false ∧
      (fetchDataRoute now2 tz2 up2 ((fetchDataRoute now1 tz1 up1 st).2.1)).2.2 = false) ∧
    (∀ (now tz : Int) (up : Except String UpstreamPayload) (st : ServerState)
       (d : FetchedData) (hc : Bool) (lu : Int),
      (fetchDataRoute now tz up st).1 = FetchResponse.fresh d hc lu →
      (fetchDataRoute now tz up st).2.2 = true) := by
  have hhit : ∀ (now tz : Int) (up : Except String UpstreamPayload) (st : ServerState)
      (d : FetchedData) (t : Int),
      st.cachedData = some d → st.lastFetchTime = some t → now - t < 5 * 60 * 1000 →
      fetchDataRoute now tz up st = (FetchResponse.cached d, st, false) := by
    intro now tz up st d t hcd hlf hlt
    rcases st with ⟨cd, lf, ph⟩
    dsimp only at hcd hlf
    subst hcd; subst hlf
    unfold fetchDataRoute
    dsimp only
    rw [if_pos hlt]
  refine ⟨hhit, ?_, ?_⟩
  · intro now1 now2 tz1 tz2 up1 up2 st d t hcd hlf hlt1 hlt2
    have h1 := hhit now1 tz1 up1 st d t hcd hlf hlt1
    have h2 := hhit now2 tz2 up2 st d t hcd hlf hlt2
    refine ⟨by rw [h1], ?_, by rw [h1], ?_⟩
    · rw [h1]
      dsimp only
      rw [h2]
    · rw [h1]
      dsimp only
      rw [h2]
  · intro now tz up st d hc lu hf
    rcases st with ⟨cd, lf, ph⟩
    cases cd with
    | none => exact fetchRefresh_fetched now tz up _
    | some d0 =>
      cases lf with
      | none => exact fetchRefresh_fetched now tz up _
      | some t0 =>
        unfold fetchDataRoute at hf ⊢
        dsimp only at hf ⊢
        by_cases hlt : now - t0 < 5 * 60 * 1000
        · rw [if_pos hlt] at hf
          exact absurd hf (by simp)
        · rw [if_neg hlt]
          exact fetchRefresh_fetched now tz up _
